import Mathlib

/-!
Verification development for the clock-recovery PLL of
`scopeprotocols/ClockRecoveryFilter.cpp` (`ClockRecoveryFilter`).

Modelling conventions:

* C `float`/`double` arithmetic is idealised as exact rational arithmetic.
  Rationals are represented by the `CFloat` structure, a reduced fraction with
  positive denominator whose operations are plain integer arithmetic, so all
  model states can be evaluated inside the kernel.
* C `int64_t` arithmetic is modelled as unbounded `ℤ`; `int64_t` division and
  the `(int64_t)` cast of a floating value truncate toward zero (`Int.tdiv`).
* `std::vector<int64_t>& edges` is modelled as its length `nedges` plus an
  index function `edge : ℕ → ℤ`; likewise the gate waveform is modelled by its
  sample count and its scaled-offset / scaled-duration / value accessors, the
  read-only waveform contract the engine relies on.
* The loop-local logs `corrections` and `gateReads` are ghost instrumentation
  (most recent event first); they record for each visited real edge whether
  the proportional correction fired, and each gate sample index the gate scan
  touched.  `offsetsAtAbort`/`correctionsAtAbort` snapshot the output state at
  the moment the Nyquist abort fires.  No ghost field feeds back into the
  modelled computation.
* `while` loops become structural recursion on an explicit fuel argument;
  lemmas below show the fuel passed by the callers is always sufficient, and
  the top-level loops return `none` exactly when the fuel runs out.
-/

/-- Exact value of a C floating-point variable: a fraction `num / den`,
kept reduced with `0 < den` by the smart constructor `CFloat.norm`. -/
structure CFloat where
  num : ℤ
  den : ℤ
deriving DecidableEq, Repr

/-- Builds the reduced representation of `n / d`; call sites maintain `0 < d`. -/
def CFloat.norm (n d : ℤ) : CFloat :=
  let g : ℤ := (Int.gcd n d : ℤ)
  ⟨n / g, d / g⟩

def CFloat.ofInt (z : ℤ) : CFloat := ⟨z, 1⟩

def CFloat.add (a b : CFloat) : CFloat :=
  CFloat.norm (a.num * b.den + b.num * a.den) (a.den * b.den)

def CFloat.sub (a b : CFloat) : CFloat :=
  CFloat.norm (a.num * b.den - b.num * a.den) (a.den * b.den)

def CFloat.mul (a b : CFloat) : CFloat :=
  CFloat.norm (a.num * b.num) (a.den * b.den)

def CFloat.div (a b : CFloat) : CFloat :=
  if b.num < 0 then CFloat.norm (-(a.num * b.den)) (a.den * -b.num)
  else CFloat.norm (a.num * b.den) (a.den * b.num)

/-- Comparison `a < b`, exact for positive denominators. -/
def CFloat.lt (a b : CFloat) : Bool := decide (a.num * b.den < b.num * a.den)

/-- The C cast `(int64_t)x` of a floating value: truncation toward zero. -/
def CFloat.trunc (a : CFloat) : ℤ := Int.tdiv a.num a.den

/-- The C library function `round`: nearest integer, halves away from zero. -/
def CFloat.roundAway (a : CFloat) : ℤ :=
  if a.num < 0 then -(Int.fdiv (2 * -a.num + a.den) (2 * a.den))
  else Int.fdiv (2 * a.num + a.den) (2 * a.den)

/-- Semantic value of a `CFloat`, for specification-level statements. -/
def CFloat.val (a : CFloat) : ℚ := (a.num : ℚ) / (a.den : ℚ)

/-- C++ `int64_t` division: truncation toward zero. -/
def i64div (a b : ℤ) : ℤ := Int.tdiv a b

/-! ## The PLL inner loop without gating (`InnerLoopWithNoGating`) -/

/-- Arguments of the inner loops: the edge timestamp vector (length plus index
function), the last scaled input timestamp `tend`, and the three period
parameters computed by `Refresh`. -/
structure PllInput where
  nedges : ℕ
  edge : ℕ → ℤ
  tend : ℤ
  initialPeriod : ℤ
  halfPeriod : ℤ
  fnyquist : ℤ

/-- Mutable state of `InnerLoopWithNoGating`, plus ghost logs. -/
structure NGState where
  nedge : ℕ
  edgepos : ℤ
  tlast : ℤ
  iperiod : ℤ
  fperiod : CFloat
  offsets : List ℤ
  corrections : List Bool
  aborted : Bool
  offsetsAtAbort : List ℤ
  correctionsAtAbort : List Bool
deriving DecidableEq, Repr

/-- The frequency-error computation of the no-gating loop (source lines
460-471): `uiLen = tnext - tlast` as a float; no correction when at or below
the glitch cutoff `initialPeriod / 10`; otherwise divide by the rounded
number of UIs unless that rounds to zero. -/
def ngFrequencyError (initialPeriod : ℤ) (fperiod : CFloat) (uiLen0 : ℤ) : CFloat :=
  let uiLen : CFloat := CFloat.ofInt uiLen0
  if (CFloat.ofInt (i64div initialPeriod 10)).lt uiLen then
    let numUIs : ℤ := (uiLen.mul ((CFloat.ofInt 1).div (CFloat.ofInt initialPeriod))).roundAway
    if numUIs ≠ 0 then fperiod.sub (uiLen.div (CFloat.ofInt numUIs)) else CFloat.ofInt 0
  else CFloat.ofInt 0

/-- One body of the edge-consuming `while` of the no-gating loop (source lines
446-517): phase error with single wrap each way, frequency error, proportional
correction and bang-bang nudge guarded by `tlast != 0`, Nyquist abort. -/
def ngVisit (c : PllInput) (s : NGState) : NGState :=
  let tnext : ℤ := c.edge s.nedge
  let dphase : ℤ := (s.edgepos - tnext) - s.iperiod
  let fdphase0 : CFloat := CFloat.ofInt dphase
  let fdphase1 : CFloat :=
    if (CFloat.ofInt c.halfPeriod).lt fdphase0 then fdphase0.sub s.fperiod else fdphase0
  let fdphase : CFloat :=
    if fdphase1.lt (CFloat.ofInt (-c.halfPeriod)) then fdphase1.add s.fperiod else fdphase1
  let fdperiod : CFloat := ngFrequencyError c.initialPeriod s.fperiod (tnext - s.tlast)
  if s.tlast ≠ 0 then
    let fperiod : CFloat := s.fperiod.sub ((fdperiod.mul ⟨6, 1000⟩).add (fdphase.mul ⟨2, 1000⟩))
    let iperiod : ℤ := fperiod.trunc
    let bangbang : ℤ := (fperiod.mul ⟨25, 10000⟩).trunc
    let edgepos : ℤ := if 0 < dphase then s.edgepos - bangbang else s.edgepos + bangbang
    if iperiod < c.fnyquist then
      { s with fperiod := fperiod, iperiod := iperiod, edgepos := edgepos,
               nedge := c.nedges, aborted := true,
               corrections := true :: s.corrections,
               offsetsAtAbort := s.offsets,
               correctionsAtAbort := true :: s.corrections }
    else
      { s with fperiod := fperiod, iperiod := iperiod, edgepos := edgepos,
               tlast := tnext, nedge := s.nedge + 1,
               corrections := true :: s.corrections }
  else
    { s with tlast := tnext, nedge := s.nedge + 1, corrections := false :: s.corrections }

/-- The edge-consuming `while` loop: guard
`tnext + center < edgepos && nedge < edgemax`, with `break` on abort.
Structural fuel; `c.nedges` fuel always suffices since `nedge` grows. -/
def ngInner (c : PllInput) (center : ℤ) : ℕ → NGState → NGState
  | 0, s => s
  | fuel+1, s =>
    if c.edge s.nedge + center < s.edgepos ∧ s.nedge < c.nedges - 1 then
      let s1 := ngVisit c s
      if s1.aborted then s1 else ngInner c center fuel s1
    else s

/-- One iteration of the outer `for` loop of the no-gating inner loop:
consume edges, then push `edgepos + center` and advance by `iperiod`. -/
def ngStep (c : PllInput) (s : NGState) : NGState :=
  let center : ℤ := i64div s.iperiod 2
  let s1 := ngInner c center c.nedges s
  { s1 with offsets := s1.offsets ++ [s1.edgepos + center],
            edgepos := s1.edgepos + s1.iperiod }

/-- Outer loop guard `edgepos < tend && nedge < edgemax`. -/
def ngGuard (c : PllInput) (s : NGState) : Bool :=
  decide (s.edgepos < c.tend) && decide (s.nedge < c.nedges - 1)

/-- `ClockRecoveryFilter::InnerLoopWithNoGating`, as a fuelled iteration of
`ngStep`; `none` means the fuel ran out before the loop guard failed. -/
def InnerLoopWithNoGating (c : PllInput) : ℕ → NGState → Option NGState
  | 0, s => if ngGuard c s then none else some s
  | fuel+1, s => if ngGuard c s then InnerLoopWithNoGating c fuel (ngStep c s) else some s

/-- Initial state of the no-gating loop (source lines 425-437). -/
def ngInit (c : PllInput) : NGState :=
  { nedge := 1, edgepos := c.edge 0, tlast := 0, iperiod := c.initialPeriod,
    fperiod := CFloat.ofInt c.initialPeriod, offsets := [], corrections := [],
    aborted := false, offsetsAtAbort := [], correctionsAtAbort := [] }

/-! ## Output squarewave synthesis -/

/-- The scalar fill loop: `value = false; for i: value = !value; s[i] = value`. -/
def fillSquarewaveLoop : ℕ → Bool → List Bool
  | 0, _ => []
  | n+1, value => (!value) :: fillSquarewaveLoop n (!value)

/-- `ClockRecoveryFilter::FillSquarewaveGeneric`, as the sample list produced
for `len` offsets. -/
def FillSquarewaveGeneric (len : ℕ) : List Bool := fillSquarewaveLoop len false

/-- The 32-sample fill pattern stored by `FillSquarewaveAVX2`. -/
def squarewaveFiller : List Bool :=
  [false, true, false, true, false, true, false, true,
   false, true, false, true, false, true, false, true,
   false, true, false, true, false, true, false, true,
   false, true, false, true, false, true, false, true]

/-- `ClockRecoveryFilter::FillSquarewaveAVX2`: whole 32-sample blocks receive
the stored pattern, the tail `i = end .. len-1` re-runs the scalar loop from
`value = false`. -/
def FillSquarewaveAVX2 (len : ℕ) : List Bool :=
  if len = 0 then []
  else List.flatten (List.replicate ((len - len % 32) / 32) squarewaveFiller) ++
    fillSquarewaveLoop (len % 32) false

/-! ## The `Refresh` entry points relevant to empty-output handling -/

/-- Femtoseconds per second (`FS_PER_SECOND`). -/
def FS_PER_SECOND : ℤ := 10 ^ 15

/-- The decision skeleton of `ClockRecoveryFilter::Refresh` downstream of edge
extraction, for the no-gate path: empty edge list gives the no-data result
(`SetData(nullptr)`); a nominal period below twice the input timescale gives
the no-data result; otherwise run the PLL and return its offsets. -/
def RefreshClock (edge : ℕ → ℤ) (nedges : ℕ) (timescale : ℤ) (baud : CFloat)
    (tend : ℤ) (fuel : ℕ) : Option (List ℤ) :=
  if nedges = 0 then none
  else
    let initialPeriod : ℤ := (CFloat.div ⟨FS_PER_SECOND, 1⟩ baud).roundAway
    let halfPeriod : ℤ := i64div initialPeriod 2
    let fnyquist : ℤ := 2 * timescale
    if initialPeriod < fnyquist then none
    else
      let c : PllInput :=
        { nedges := nedges, edge := edge, tend := tend, initialPeriod := initialPeriod,
          halfPeriod := halfPeriod, fnyquist := fnyquist }
      (InnerLoopWithNoGating c fuel (ngInit c)).map NGState.offsets

/-! ## Concrete inputs used by the counterexamples -/

/-- Strictly increasing edge sequence of 1170 timestamps: two seed edges, then
three dense glitch bursts (1 fs spacing), each burst opening at the maximal
phase error the loop can see, then one far edge. -/
def burstEdge (i : ℕ) : ℤ :=
  if i < 2 then (i : ℤ)
  else if i < 286 then 4999 + (i : ℤ)
  else if i < 668 then 8461 + (i : ℤ)
  else if i < 1169 then 10663 + (i : ℤ)
  else 12819

/-- A 1.25 GHz-class run scaled down to `initialPeriod` 10000 fs, timescale
1 fs (`fnyquist = 2`), fed the glitch bursts of `burstEdge`. -/
def burstInput : PllInput :=
  { nedges := 1170, edge := burstEdge, tend := 10 ^ 9, initialPeriod := 10000,
    halfPeriod := 5000, fnyquist := 2 }

/-- Input whose third correction pushes the period below the Nyquist floor:
`initialPeriod = fnyquist = 100` (timescale 50 fs), edges at 0, 60, 70. -/
def nyqEdge (i : ℕ) : ℤ :=
  if i = 0 then 0 else if i = 1 then 60 else if i = 2 then 70
  else if i = 3 then 1000 else 2000

def nyqInput : PllInput :=
  { nedges := 5, edge := nyqEdge, tend := 2000, initialPeriod := 100,
    halfPeriod := 50, fnyquist := 100 }

/-- Edges containing a real edge at timestamp exactly 0 (legal when the first
crossing sits at the trigger point): 0 collides with the `tlast == 0`
no-history sentinel. -/
def zeroEdge (i : ℕ) : ℤ :=
  if i = 0 then -300 else if i = 1 then 0 else if i = 2 then 10
  else if i = 3 then 5000 else 6000

def zeroInput : PllInput :=
  { nedges := 5, edge := zeroEdge, tend := 400, initialPeriod := 100,
    halfPeriod := 50, fnyquist := 2 }

/-! ## The PLL inner loop with gating (`InnerLoopWithGating`) -/

/-- Read-only view of the gate waveform: sample count plus the scaled-offset,
scaled-duration and boolean-value accessors used by the engine
(`GetOffsetScaled`, `GetDurationScaled`, `GetValue`). -/
structure GateWaveform where
  size : ℕ
  offsetScaled : ℕ → ℤ
  durationScaled : ℕ → ℤ
  value : ℕ → Bool

/-- Arguments of the gated inner loop. -/
structure GPllInput where
  nedges : ℕ
  edge : ℕ → ℤ
  tend : ℤ
  fnyquist : ℤ
  gate : GateWaveform

/-- Upper bound of the gate cursor scan: the C++ condition is
`igate < gate->size()-1` with `size_t` arithmetic, so a zero-sample gate
wraps around to `2^64 - 1` instead of disabling the scan. -/
def gateScanBound (n : ℕ) : ℕ := if n = 0 then 2 ^ 64 - 1 else n - 1

/-- Mutable state of `InnerLoopWithGating` (the period variables are state
because reacquisition rewrites them), plus ghost logs: `gateReads` records
every gate sample index the scan reads, `lastChange` the index at which the
gating flag last changed (used by the termination argument). -/
structure GState where
  igate : ℕ
  nedge : ℕ
  edgepos : ℤ
  period : ℤ
  initialPeriod : ℤ
  halfPeriod : ℤ
  gating : Bool
  tlast : ℤ
  offsets : List ℤ
  corrections : List Bool
  aborted : Bool
  offsetsAtAbort : List ℤ
  correctionsAtAbort : List Bool
  gateReads : List ℕ
  lastChange : ℕ
deriving DecidableEq

/-- The reacquisition interval collection (source lines 285-291): up to 512
pulse widths `edges[nedge+i] - edges[nedge+i-1]`, `i = 1, 2, ...`, stopping
at the end of the edge vector. -/
def reacqIntervals (c : GPllInput) (nedge : ℕ) : List ℤ :=
  (List.range' 1 (min 512 (c.nedges - nedge - 1))).map
    (fun i => c.edge (nedge + i) - c.edge (nedge + i - 1))

/-- The reacquisition period estimate (source lines 292-312): sort the
intervals, take the upper median, and average every interval within 25
percent of it (`w >= 0.75*median && w <= 1.25*median`, exactly
`3*median ≤ 4*w` and `4*w ≤ 5*median`). -/
def reacqAverage (c : GPllInput) (nedge : ℕ) : ℤ :=
  let lengths := reacqIntervals c nedge
  let sorted := lengths.insertionSort (· ≤ ·)
  let median := sorted.getD (sorted.length / 2) 0
  let near := lengths.filter (fun w => decide (3 * median ≤ 4 * w) && decide (4 * w ≤ 5 * median))
  i64div near.sum near.length

/-- The gate-cursor scan at the top of each outer iteration (source lines
254-330), including the reacquisition block run on a gated-to-active
transition: set `period = initialPeriod = average`, `halfPeriod = period/2`,
and snap `edgepos` to the next real edge plus one period.  Fuel-driven; the
cursor `igate` advances on the only looping branch. -/
def gateScan (c : GPllInput) : ℕ → GState → GState
  | 0, s => s
  | fuel+1, s =>
    if s.igate < gateScanBound c.gate.size then
      let a : ℤ := c.gate.offsetScaled s.igate
      let b : ℤ := a + c.gate.durationScaled s.igate
      let s0 := { s with gateReads := s.igate :: s.gateReads }
      if s.edgepos < a then s0
      else if b < s.edgepos then gateScan c fuel { s0 with igate := s0.igate + 1 }
      else
        let gating1 : Bool := !(c.gate.value s0.igate)
        if !gating1 && s0.gating then
          let avg : ℤ := reacqAverage c s0.nedge
          { s0 with gating := gating1, lastChange := s0.igate,
                    period := avg, initialPeriod := avg, halfPeriod := i64div avg 2,
                    edgepos := c.edge s0.nedge + avg }
        else
          { s0 with gating := gating1,
                    lastChange := if gating1 = s0.gating then s0.lastChange else s0.igate }
    else s

/-- The un-normalised `uiLen` adjustment of the gated loop (source lines
352-357): `numUIs = round(uiLen * 1.0 / initialPeriod)`; keep `period` (zero
frequency error) when `numUIs < 0.1`, else divide by it (`int64 /= float`,
truncating). -/
def gatedUiLenAdjusted (initialPeriod period uiLen0 : ℤ) : ℤ :=
  let numUIs : ℤ :=
    ((CFloat.ofInt uiLen0).div (CFloat.ofInt initialPeriod)).roundAway
  if (CFloat.ofInt numUIs).lt ⟨1, 10⟩ then period else i64div uiLen0 numUIs

/-- One body of the edge-consuming `while` of the gated loop (source lines
337-405).  Unlike the no-gating loop the phase error is wrapped in place (the
bang-bang nudge tests the wrapped value) and all period arithmetic is on
`int64_t` with truncation after each compound assignment. -/
def gVisit (c : GPllInput) (s : GState) : GState :=
  let tnext : ℤ := c.edge s.nedge
  if !s.gating then
    let dphase0 : ℤ := (s.edgepos - tnext) - s.period
    let dphase1 : ℤ := if s.halfPeriod < dphase0 then dphase0 - s.period else dphase0
    let dphase : ℤ := if dphase1 < -s.halfPeriod then dphase1 + s.period else dphase1
    let uiLen : ℤ := gatedUiLenAdjusted s.initialPeriod s.period (tnext - s.tlast)
    let dperiod : ℤ := s.period - uiLen
    if s.tlast ≠ 0 then
      let period1 : ℤ :=
        (CFloat.sub (CFloat.ofInt s.period) ((CFloat.ofInt dperiod).mul ⟨6, 1000⟩)).trunc
      let period2 : ℤ :=
        (CFloat.sub (CFloat.ofInt period1) ((CFloat.ofInt dphase).mul ⟨2, 1000⟩)).trunc
      let edgepos1 : ℤ :=
        if 0 < dphase then s.edgepos - i64div period2 400 else s.edgepos + i64div period2 400
      if period2 < c.fnyquist then
        { s with period := period2, edgepos := edgepos1,
                 nedge := c.nedges, aborted := true,
                 corrections := true :: s.corrections,
                 offsetsAtAbort := s.offsets,
                 correctionsAtAbort := true :: s.corrections }
      else
        { s with period := period2, edgepos := edgepos1,
                 tlast := tnext, nedge := s.nedge + 1,
                 corrections := true :: s.corrections }
    else
      { s with tlast := tnext, nedge := s.nedge + 1, corrections := false :: s.corrections }
  else
    { s with tlast := tnext, nedge := s.nedge + 1, corrections := false :: s.corrections }

/-- The edge-consuming `while` loop of the gated path: guard
`tnext + center < edgepos && nedge+1 < edges.size()`, `break` on abort. -/
def gInner (c : GPllInput) (center : ℤ) : ℕ → GState → GState
  | 0, s => s
  | fuel+1, s =>
    if c.edge s.nedge + center < s.edgepos ∧ s.nedge + 1 < c.nedges then
      let s1 := gVisit c s
      if s1.aborted then s1 else gInner c center fuel s1
    else s

/-- One iteration of the outer `for` loop of the gated inner loop: compute
`center` from the current period, run the gate scan, consume edges, then push
`edgepos + period/2` when not gating and advance by `period`. -/
def gStep (c : GPllInput) (s : GState) : GState :=
  let center : ℤ := i64div s.period 2
  let s1 := gateScan c (gateScanBound c.gate.size + 1) s
  let s2 := gInner c center c.nedges s1
  let s3 := if !s2.gating
    then { s2 with offsets := s2.offsets ++ [s2.edgepos + i64div s2.period 2] }
    else s2
  { s3 with edgepos := s3.edgepos + s3.period }

/-- Outer loop guard of the gated path. -/
def gGuard (c : GPllInput) (s : GState) : Bool :=
  decide (s.edgepos < c.tend) && decide (s.nedge < c.nedges - 1)

/-- `ClockRecoveryFilter::InnerLoopWithGating`, as a fuelled iteration of
`gStep`; `none` means the fuel ran out before the loop guard failed. -/
def InnerLoopWithGating (c : GPllInput) : ℕ → GState → Option GState
  | 0, s => if gGuard c s then none else some s
  | fuel+1, s => if gGuard c s then InnerLoopWithGating c fuel (gStep c s) else some s

/-- Initial state of the gated loop (source lines 237-249): the loop starts
gated exactly when a nonempty gate waveform opens with a false sample. -/
def gInit (c : GPllInput) (initialPeriod halfPeriod : ℤ) : GState :=
  { igate := 0, nedge := 1, edgepos := c.edge 0, period := initialPeriod,
    initialPeriod := initialPeriod, halfPeriod := halfPeriod,
    gating := if c.gate.size ≠ 0 then !(c.gate.value 0) else false,
    tlast := 0, offsets := [], corrections := [], aborted := false,
    offsetsAtAbort := [], correctionsAtAbort := [],
    gateReads := if c.gate.size ≠ 0 then [0] else [], lastChange := 0 }

/-- A zero-sample gate waveform (legal per the channel contract: the gate is
optional and may hold an empty capture); accessor values are irrelevant. -/
def emptyGateWave : GateWaveform :=
  { size := 0, offsetScaled := fun _ => 10 ^ 6, durationScaled := fun _ => 0,
    value := fun _ => false }

/-- The `nyqEdge` run with the zero-sample gate attached. -/
def emptyGateInput : GPllInput :=
  { nedges := 5, edge := nyqEdge, tend := 250, fnyquist := 2, gate := emptyGateWave }

/-- Three-sample gate: gated interval `[0, 600]`, active interval
`[1000, 2000]`, plus a far dummy sample (the scan only ever dereferences
samples `0 .. size-2`). -/
def reacqGate : GateWaveform :=
  { size := 3,
    offsetScaled := fun i => if i = 0 then 0 else if i = 1 then 1000 else 10 ^ 7,
    durationScaled := fun i => if i = 0 then 600 else if i = 1 then 1000 else 100,
    value := fun i => decide (i = 1) }

/-- Edges for the reacquisition run: one seed edge at 0, then edges every
10 fs from 910 on. -/
def reacqEdge (i : ℕ) : ℤ := if i = 0 then 0 else 900 + 10 * (i : ℤ)

/-- Gated run with timescale 10 fs (`fnyquist = 20`) whose reacquisition
measures a 10 fs pulse width, half the Nyquist floor. -/
def reacqInput : GPllInput :=
  { nedges := 15, edge := reacqEdge, tend := 10 ^ 6, fnyquist := 20, gate := reacqGate }


/-! ## Concrete auxiliary states and invariant definitions -/


/-- The gated-loop state of the `reacqInput` run at the moment the scan finds
the active gate interval: cursor on gate sample 1, `edgepos = 1000`. -/
def reacqTransState : GState :=
  { igate := 1, nedge := 1, edgepos := 1000, period := 1000, initialPeriod := 1000,
    halfPeriod := 500, gating := true, tlast := 0, offsets := [], corrections := [],
    aborted := false, offsetsAtAbort := [], correctionsAtAbort := [],
    gateReads := [0], lastChange := 0 }


def posEdge (i : ℕ) : ℤ := 100 * ((i : ℤ) + 1)

/-- A five-edge input with all timestamps positive (the sentinel cannot be
re-armed), used to witness the amended C8 statement. -/
def posInput : PllInput :=
  { nedges := 5, edge := posEdge, tend := 460, initialPeriod := 100,
    halfPeriod := 50, fnyquist := 2 }

/-- Final state of the `posInput` run. -/
def posFin : NGState :=
  { nedge := 3, edgepos := 500, tlast := 300, iperiod := 100,
    fperiod := ⟨100, 1⟩, offsets := [150, 250, 350, 450],
    corrections := [true, false], aborted := false,
    offsetsAtAbort := [], correctionsAtAbort := [] }

/-- Invariant: the correction log (most recent first) is empty with the
sentinel still unset, or the sentinel is set and every correction after the
first was applied. -/
def ngCorrInv (s : NGState) : Prop :=
  (s.corrections = [] ∧ s.tlast = 0) ∨
  (s.tlast ≠ 0 ∧ ∃ k, s.corrections = List.replicate k true ++ [false])


/-- Final state of the `nyqInput` no-gating run (which hits the Nyquist
abort). -/
def nyqFin : NGState :=
  { nedge := 5, edgepos := 299, tlast := 60, iperiod := 99,
    fperiod := ⟨4997, 50⟩, offsets := [50, 150, 250],
    corrections := [true, false], aborted := true,
    offsetsAtAbort := [50, 150], correctionsAtAbort := [true, false] }

/-- Final state of the `reacqInput` gated run (which hits the Nyquist abort
right after reacquisition). -/
def reacqFin : GState :=
  { igate := 1, nedge := 15, edgepos := 940, period := 10, initialPeriod := 10,
    halfPeriod := 5, gating := false, tlast := 910, offsets := [925, 935],
    corrections := [true, false], aborted := true, offsetsAtAbort := [925],
    correctionsAtAbort := [true, false], gateReads := [1, 1, 0, 0, 0],
    lastChange := 1 }


/-- Loop invariant of the no-gating loop: a live (non-aborted) state keeps
its integer period at or above the Nyquist floor, and an aborted state has
its edge cursor pinned past the end. -/
def NInv (c : PllInput) (s : NGState) : Prop :=
  (s.aborted = false → c.fnyquist ≤ s.iperiod) ∧
  (s.aborted = true → s.nedge = c.nedges)


/-! ## Helper lemmas -/


/-! ## Helper lemmas on `CFloat` arithmetic -/

lemma cfloat_div_ofInt_pos (u P : ℤ) (hP : 0 < P) :
    (CFloat.ofInt u).div (CFloat.ofInt P) = CFloat.norm u P := by
  simp [CFloat.div, CFloat.ofInt, hP.not_lt]

lemma cfloat_one_div_ofInt (P : ℤ) (hP : 0 < P) :
    (CFloat.ofInt 1).div (CFloat.ofInt P) = ⟨1, P⟩ := by
  rw [cfloat_div_ofInt_pos 1 P hP]
  simp [CFloat.norm, Int.one_gcd]

lemma cfloat_mul_ofInt_one_den (u n d : ℤ) :
    (CFloat.ofInt u).mul ⟨n, d⟩ = CFloat.norm (u * n) d := by
  simp [CFloat.mul, CFloat.ofInt]

lemma roundAway_nonneg_eq (u P : ℤ) (hu : 0 ≤ u) :
    CFloat.roundAway ⟨u, P⟩ = Int.fdiv (2 * u + P) (2 * P) := by
  simp [CFloat.roundAway, hu.not_lt]

lemma roundAway_norm_eq (u P : ℤ) (hu : 0 ≤ u) (hP : 0 < P) :
    (CFloat.norm u P).roundAway = CFloat.roundAway ⟨u, P⟩ := by
  have hgd1 : ((Int.gcd u P : ℤ)) ∣ u := Int.gcd_dvd_left
  have hgd2 : ((Int.gcd u P : ℤ)) ∣ P := Int.gcd_dvd_right
  set g : ℤ := (Int.gcd u P : ℤ) with hg
  have hg0 : 0 < g := by
    have : u ≠ 0 ∨ P ≠ 0 := Or.inr hP.ne'
    have h2 := Int.gcd_pos_of_ne_zero_right u hP.ne'
    rw [hg]
    exact_mod_cast h2
  have hPg : 0 < P / g := Int.ediv_pos_of_pos_of_dvd hP hg0.le hgd2
  have hug : 0 ≤ u / g := Int.ediv_nonneg hu hg0.le
  have h2u : g ∣ 2 * u := Dvd.dvd.mul_left hgd1 2
  have h2P : g ∣ 2 * P := Dvd.dvd.mul_left hgd2 2
  have expand1 : 2 * (u / g) + P / g = (2 * u + P) / g := by
    rw [Int.add_ediv_of_dvd_left h2u, Int.mul_ediv_assoc 2 hgd1]
  have expand2 : 2 * (P / g) = (2 * P) / g := (Int.mul_ediv_assoc 2 hgd2).symm
  have : (2 * u + P) / g / ((2 * P) / g) = (2 * u + P) / (2 * P) := by
    obtain ⟨C, hC⟩ : g ∣ 2 * u + P := Dvd.dvd.add h2u hgd2
    obtain ⟨B, hB⟩ := hgd2
    have h2Pg : (2 : ℤ) * P = g * (2 * B) := by rw [hB]; ring
    rw [hC, h2Pg, Int.mul_ediv_cancel_left C hg0.ne', Int.mul_ediv_cancel_left (2 * B) hg0.ne',
      Int.mul_ediv_mul_of_pos C (2 * B) hg0]
  rw [CFloat.norm, roundAway_nonneg_eq u P hu]
  show CFloat.roundAway ⟨u / g, P / g⟩ = _
  rw [roundAway_nonneg_eq _ _ hug, expand1, expand2,
    Int.fdiv_eq_ediv _ (by positivity), Int.fdiv_eq_ediv _ (by positivity), this]

/-- Shared form of the rounded UI count appearing in both loops. -/
lemma ng_numUIs_eq (u P : ℤ) (hu : 0 ≤ u) (hP : 0 < P) :
    ((CFloat.ofInt u).mul ((CFloat.ofInt 1).div (CFloat.ofInt P))).roundAway =
      CFloat.roundAway ⟨u, P⟩ := by
  rw [cfloat_one_div_ofInt P hP, cfloat_mul_ofInt_one_den, mul_one,
    roundAway_norm_eq u P hu hP]

lemma gated_numUIs_eq (u P : ℤ) (hu : 0 ≤ u) (hP : 0 < P) :
    ((CFloat.ofInt u).div (CFloat.ofInt P)).roundAway = CFloat.roundAway ⟨u, P⟩ := by
  rw [cfloat_div_ofInt_pos u P hP, roundAway_norm_eq u P hu hP]

lemma roundAway_uiLen_nonneg (u P : ℤ) (hu : 0 ≤ u) (hP : 0 < P) :
    0 ≤ CFloat.roundAway ⟨u, P⟩ := by
  rw [roundAway_nonneg_eq u P hu, Int.fdiv_eq_ediv _ (by positivity)]
  exact Int.ediv_nonneg (by omega) (by omega)

lemma roundAway_eq_zero_of_small (u P : ℤ) (hu : 0 ≤ u) (hP : 0 < P) (h : 2 * u < P) :
    CFloat.roundAway ⟨u, P⟩ = 0 := by
  rw [roundAway_nonneg_eq u P hu, Int.fdiv_eq_ediv _ (by positivity)]
  exact Int.ediv_eq_zero_of_lt (by omega) (by omega)

lemma roundAway_pos_large (u P : ℤ) (hu : 0 ≤ u) (hP : 0 < P)
    (h : CFloat.roundAway ⟨u, P⟩ ≠ 0) : P ≤ 2 * u := by
  by_contra hc
  exact h (roundAway_eq_zero_of_small u P hu hP (by omega))

lemma ite_ne_zero (C : Prop) [Decidable C] {a b : ℤ} (ha : a ≠ 0)
    (hb : b ≠ 0) : (if C then a else b) ≠ 0 := by
  split
  · exact ha
  · exact hb

lemma ngVisit_corrections (c : PllInput) (t : NGState) :
    (ngVisit c t).corrections = (decide (t.tlast ≠ 0)) :: t.corrections := by
  by_cases h : t.tlast ≠ 0
  · simp only [ngVisit, if_pos h, apply_ite NGState.corrections]
    simp [h]
  · simp only [ngVisit, if_neg h]
    simp only [ne_eq, not_not] at h
    simp [h]

lemma ngVisit_inv (c : PllInput) (t : NGState) (hpos : 0 < c.edge t.nedge)
    (h : ngCorrInv t) : ngCorrInv (ngVisit c t) := by
  rcases h with ⟨hc, ht⟩ | ⟨ht, k, hc⟩
  · right
    constructor
    · simp [ngVisit, ht, ne_of_gt hpos]
    · exact ⟨0, by simp [ngVisit, ht, hc]⟩
  · right
    constructor
    · simp only [ngVisit, if_pos ht, apply_ite NGState.tlast]
      exact ite_ne_zero _ ht (ne_of_gt hpos)
    · refine ⟨k + 1, ?_⟩
      simp only [ngVisit, if_pos ht, apply_ite NGState.corrections]
      split <;> simp [hc, List.replicate_succ]

lemma ngInner_inv (c : PllInput) (center : ℤ)
    (hpos : ∀ i, i < c.nedges → 0 < c.edge i) (fuel : ℕ) :
    ∀ t, ngCorrInv t → ngCorrInv (ngInner c center fuel t) := by
  induction fuel with
  | zero => intro t h; simpa [ngInner] using h
  | succ n ih =>
    intro t h
    unfold ngInner
    split
    · next hg =>
      have hlt : t.nedge < c.nedges := lt_of_lt_of_le hg.2 (Nat.sub_le _ _)
      have hv := ngVisit_inv c t (hpos _ hlt) h
      dsimp only
      split
      · exact hv
      · exact ih _ hv
    · exact h

lemma ngStep_inv (c : PllInput) (hpos : ∀ i, i < c.nedges → 0 < c.edge i)
    (t : NGState) (h : ngCorrInv t) : ngCorrInv (ngStep c t) := by
  have h1 := ngInner_inv c (i64div t.iperiod 2) hpos c.nedges t h
  unfold ngStep
  rcases h1 with ⟨hc, ht⟩ | ⟨ht, k, hc⟩
  · exact Or.inl ⟨hc, ht⟩
  · exact Or.inr ⟨ht, k, hc⟩

lemma runNoGating_inv (c : PllInput) (hpos : ∀ i, i < c.nedges → 0 < c.edge i)
    (fuel : ℕ) : ∀ t fin, ngCorrInv t →
    InnerLoopWithNoGating c fuel t = some fin → ngCorrInv fin := by
  induction fuel with
  | zero =>
    intro t fin h hr
    unfold InnerLoopWithNoGating at hr
    split at hr
    · exact absurd hr (by simp)
    · injection hr with hr; subst hr; exact h
  | succ n ih =>
    intro t fin h hr
    unfold InnerLoopWithNoGating at hr
    split at hr
    · exact ih _ _ (ngStep_inv c hpos t h) hr
    · injection hr with hr; subst hr; exact h

lemma ngVisit_abort_eq (c : PllInput) (s : NGState) :
    (ngVisit c s).aborted = s.aborted ∨
    ((ngVisit c s).nedge = c.nedges ∧
     (ngVisit c s).offsets = (ngVisit c s).offsetsAtAbort ∧
     (ngVisit c s).corrections = (ngVisit c s).correctionsAtAbort) := by
  unfold ngVisit
  dsimp only
  repeat' split
  all_goals first
    | (right; exact ⟨rfl, rfl, rfl⟩)
    | (left; rfl)

lemma ngInner_abort (c : PllInput) (center : ℤ) (fuel : ℕ) :
    ∀ s : NGState, s.aborted = false →
    (ngInner c center fuel s).aborted = false ∨
    ((ngInner c center fuel s).aborted = true ∧
     (ngInner c center fuel s).nedge = c.nedges ∧
     (ngInner c center fuel s).offsets = (ngInner c center fuel s).offsetsAtAbort ∧
     (ngInner c center fuel s).corrections =
       (ngInner c center fuel s).correctionsAtAbort) := by
  induction fuel with
  | zero => intro s h0; left; simpa [ngInner] using h0
  | succ n ih =>
    intro s h0
    unfold ngInner
    split
    · dsimp only
      split
      · next hA =>
        rcases ngVisit_abort_eq c s with hE | hP
        · rw [hE, h0] at hA; exact absurd hA (by simp)
        · exact Or.inr ⟨hA, hP⟩
      · next hA => exact ih (ngVisit c s) (by simpa using hA)
    · left; exact h0

lemma ngStep_abort (c : PllInput) (s : NGState) (h0 : s.aborted = false) :
    (ngStep c s).aborted = false ∨
    ((ngStep c s).aborted = true ∧ (ngStep c s).nedge = c.nedges ∧
     (∃ x, (ngStep c s).offsets = (ngStep c s).offsetsAtAbort ++ [x]) ∧
     (ngStep c s).corrections = (ngStep c s).correctionsAtAbort) := by
  unfold ngStep
  dsimp only
  rcases ngInner_abort c (i64div s.iperiod 2) c.nedges s h0 with h | ⟨h1, h2, h3, h4⟩
  · left; exact h
  · right
    exact ⟨h1, h2, ⟨_, by rw [h3]⟩, h4⟩

lemma ngGuard_false_of_nedge (c : PllInput) (t : NGState)
    (h : t.nedge = c.nedges) : ngGuard c t = false := by
  have h2 : ¬ (c.nedges < c.nedges - 1) := by omega
  simp [ngGuard, h, h2]

lemma runNoGating_stopped (c : PllInput) (fuel : ℕ) (t : NGState)
    (h : ngGuard c t = false) : InnerLoopWithNoGating c fuel t = some t := by
  cases fuel <;> simp [InnerLoopWithNoGating, h]

lemma runNoGating_abort (c : PllInput) (fuel : ℕ) :
    ∀ t fin : NGState, t.aborted = false →
    InnerLoopWithNoGating c fuel t = some fin → fin.aborted = true →
    fin.nedge = c.nedges ∧ (∃ x, fin.offsets = fin.offsetsAtAbort ++ [x]) ∧
    fin.corrections = fin.correctionsAtAbort := by
  induction fuel with
  | zero =>
    intro t fin h0 hr hab
    unfold InnerLoopWithNoGating at hr
    split at hr
    · exact absurd hr (by simp)
    · injection hr with hr; subst hr; rw [h0] at hab; exact absurd hab (by simp)
  | succ n ih =>
    intro t fin h0 hr hab
    unfold InnerLoopWithNoGating at hr
    split at hr
    · rcases ngStep_abort c t h0 with h | ⟨h1, h2, h3, h4⟩
      · exact ih _ _ h hr hab
      · rw [runNoGating_stopped c n _ (ngGuard_false_of_nedge c _ h2)] at hr
        injection hr with hr; subst hr
        exact ⟨h2, h3, h4⟩
    · injection hr with hr; subst hr; rw [h0] at hab; exact absurd hab (by simp)


lemma gateScan_frame (c : GPllInput) (fuel : ℕ) :
    ∀ s : GState,
    (gateScan c fuel s).aborted = s.aborted ∧
    (gateScan c fuel s).offsets = s.offsets ∧
    (gateScan c fuel s).corrections = s.corrections ∧
    (gateScan c fuel s).offsetsAtAbort = s.offsetsAtAbort ∧
    (gateScan c fuel s).correctionsAtAbort = s.correctionsAtAbort := by
  induction fuel with
  | zero => intro s; exact ⟨rfl, rfl, rfl, rfl, rfl⟩
  | succ n ih =>
    intro s
    unfold gateScan
    dsimp only
    repeat' split
    all_goals first
      | exact ⟨rfl, rfl, rfl, rfl, rfl⟩
      | exact ih _

lemma gVisit_abort_eq (c : GPllInput) (s : GState) :
    (gVisit c s).aborted = s.aborted ∨
    ((gVisit c s).nedge = c.nedges ∧
     (gVisit c s).gating = false ∧
     (gVisit c s).offsets = (gVisit c s).offsetsAtAbort ∧
     (gVisit c s).corrections = (gVisit c s).correctionsAtAbort) := by
  unfold gVisit
  dsimp only
  split
  · next hg =>
    have hg' : s.gating = false := by simpa using hg
    repeat' split
    all_goals first
      | (right; exact ⟨rfl, hg', rfl, rfl⟩)
      | (left; rfl)
  · left; rfl

lemma gInner_abort (c : GPllInput) (center : ℤ) (fuel : ℕ) :
    ∀ s : GState, s.aborted = false →
    (gInner c center fuel s).aborted = false ∨
    ((gInner c center fuel s).aborted = true ∧
     (gInner c center fuel s).nedge = c.nedges ∧
     (gInner c center fuel s).gating = false ∧
     (gInner c center fuel s).offsets = (gInner c center fuel s).offsetsAtAbort ∧
     (gInner c center fuel s).corrections =
       (gInner c center fuel s).correctionsAtAbort) := by
  induction fuel with
  | zero => intro s h0; left; simpa [gInner] using h0
  | succ n ih =>
    intro s h0
    unfold gInner
    split
    · dsimp only
      split
      · next hA =>
        rcases gVisit_abort_eq c s with hE | hP
        · rw [hE, h0] at hA; exact absurd hA (by simp)
        · exact Or.inr ⟨hA, hP⟩
      · next hA => exact ih (gVisit c s) (by simpa using hA)
    · left; exact h0

lemma gStep_abort (c : GPllInput) (s : GState) (h0 : s.aborted = false) :
    (gStep c s).aborted = false ∨
    ((gStep c s).aborted = true ∧ (gStep c s).nedge = c.nedges ∧
     (∃ x, (gStep c s).offsets = (gStep c s).offsetsAtAbort ++ [x]) ∧
     (gStep c s).corrections = (gStep c s).correctionsAtAbort) := by
  have hs1 := gateScan_frame c (gateScanBound c.gate.size + 1) s
  unfold gStep
  dsimp only
  rcases gInner_abort c (i64div s.period 2) c.nedges _ (hs1.1.trans h0)
    with h | ⟨h1, h2, hgat, h3, h4⟩
  · left
    split
    · exact h
    · exact h
  · right
    split
    · exact ⟨h1, h2, ⟨_, by rw [h3]⟩, h4⟩
    · next hng => rw [hgat] at hng; simp at hng

lemma gGuard_false_of_nedge (c : GPllInput) (t : GState)
    (h : t.nedge = c.nedges) : gGuard c t = false := by
  have h2 : ¬ (c.nedges < c.nedges - 1) := by omega
  simp [gGuard, h, h2]

lemma runGating_stopped (c : GPllInput) (fuel : ℕ) (t : GState)
    (h : gGuard c t = false) : InnerLoopWithGating c fuel t = some t := by
  cases fuel <;> simp [InnerLoopWithGating, h]

lemma runGating_abort (c : GPllInput) (fuel : ℕ) :
    ∀ t fin : GState, t.aborted = false →
    InnerLoopWithGating c fuel t = some fin → fin.aborted = true →
    fin.nedge = c.nedges ∧ (∃ x, fin.offsets = fin.offsetsAtAbort ++ [x]) ∧
    fin.corrections = fin.correctionsAtAbort := by
  induction fuel with
  | zero =>
    intro t fin h0 hr hab
    unfold InnerLoopWithGating at hr
    split at hr
    · exact absurd hr (by simp)
    · injection hr with hr; subst hr; rw [h0] at hab; exact absurd hab (by simp)
  | succ n ih =>
    intro t fin h0 hr hab
    unfold InnerLoopWithGating at hr
    split at hr
    · rcases gStep_abort c t h0 with h | ⟨h1, h2, h3, h4⟩
      · exact ih _ _ h hr hab
      · rw [runGating_stopped c n _ (gGuard_false_of_nedge c _ h2)] at hr
        injection hr with hr; subst hr
        exact ⟨h2, h3, h4⟩
    · injection hr with hr; subst hr; rw [h0] at hab; exact absurd hab (by simp)

lemma ngVisit_nedge (c : PllInput) (s : NGState) (h : s.nedge < c.nedges) :
    s.nedge < (ngVisit c s).nedge := by
  unfold ngVisit
  dsimp only
  repeat' split
  all_goals first | exact h | exact Nat.lt_succ_self _

lemma ngInner_progress (c : PllInput) (center : ℤ) (fuel : ℕ) :
    ∀ s : NGState,
    ngInner c center fuel s = s ∨ s.nedge < (ngInner c center fuel s).nedge := by
  induction fuel with
  | zero => intro s; left; rfl
  | succ n ih =>
    intro s
    unfold ngInner
    split
    · next hgd =>
      have hn : s.nedge < c.nedges := by have := hgd.2; omega
      have hv : s.nedge < (ngVisit c s).nedge := ngVisit_nedge c s hn
      dsimp only
      split
      · right; exact hv
      · rcases ih (ngVisit c s) with he | hlt
        · right; rw [he]; exact hv
        · right; exact hv.trans hlt
    · left; rfl

lemma ngInner_nedge (c : PllInput) (center : ℤ) (fuel : ℕ) (s : NGState) :
    s.nedge ≤ (ngInner c center fuel s).nedge := by
  rcases ngInner_progress c center fuel s with he | hlt
  · rw [he]
  · exact le_of_lt hlt

lemma ngStep_nedge (c : PllInput) (s : NGState) :
    s.nedge ≤ (ngStep c s).nedge := by
  unfold ngStep
  dsimp only
  exact ngInner_nedge c _ c.nedges s

lemma ngVisit_NInv (c : PllInput) (s : NGState) (hI : NInv c s)
    (h0 : s.aborted = false) : NInv c (ngVisit c s) := by
  obtain ⟨hf, _⟩ := hI
  unfold ngVisit NInv
  dsimp only
  repeat' split
  all_goals constructor
  all_goals intro h
  all_goals first
    | rfl
    | exact le_of_not_lt (by assumption)
    | exact hf h
    | (rw [h0] at h; exact absurd h (by simp))
    | exact absurd h (by simp)

lemma ngInner_NInv (c : PllInput) (center : ℤ) (fuel : ℕ) :
    ∀ s : NGState, NInv c s → s.aborted = false →
    NInv c (ngInner c center fuel s) := by
  induction fuel with
  | zero => intro s hI _; exact hI
  | succ n ih =>
    intro s hI h0
    unfold ngInner
    split
    · dsimp only
      have hI1 := ngVisit_NInv c s hI h0
      split
      · exact hI1
      · next hA => exact ih (ngVisit c s) hI1 (by simpa using hA)
    · exact hI

lemma ngStep_NInv (c : PllInput) (s : NGState) (hI : NInv c s)
    (h0 : s.aborted = false) : NInv c (ngStep c s) := by
  have h1 := ngInner_NInv c (i64div s.iperiod 2) c.nedges s hI h0
  unfold ngStep
  dsimp only
  exact h1

lemma NInv_live_of_guard (c : PllInput) (s : NGState) (hI : NInv c s)
    (hg : ngGuard c s = true) : s.aborted = false := by
  cases hab : s.aborted
  · rfl
  · have := hI.2 hab
    simp [ngGuard] at hg
    omega

lemma ngRun_exit (c : PllInput) (fuel : ℕ) :
    ∀ s fin : NGState, InnerLoopWithNoGating c fuel s = some fin →
    ngGuard c fin = false := by
  induction fuel with
  | zero =>
    intro s fin hr
    unfold InnerLoopWithNoGating at hr
    split at hr
    · exact absurd hr (by simp)
    · next hg => injection hr with hr; subst hr; exact Bool.not_eq_true _ |>.mp hg
  | succ n ih =>
    intro s fin hr
    unfold InnerLoopWithNoGating at hr
    split at hr
    · exact ih _ _ hr
    · next hg => injection hr with hr; subst hr; exact Bool.not_eq_true _ |>.mp hg

lemma ngRun_NInv (c : PllInput) (fuel : ℕ) :
    ∀ s fin : NGState, NInv c s →
    InnerLoopWithNoGating c fuel s = some fin → NInv c fin := by
  induction fuel with
  | zero =>
    intro s fin hI hr
    unfold InnerLoopWithNoGating at hr
    split at hr
    · exact absurd hr (by simp)
    · injection hr with hr; subst hr; exact hI
  | succ n ih =>
    intro s fin hI hr
    unfold InnerLoopWithNoGating at hr
    split at hr
    · next hg => exact ih _ _ (ngStep_NInv c s hI (NInv_live_of_guard c s hI hg)) hr
    · injection hr with hr; subst hr; exact hI

lemma ngRun_total (c : PllInput) (h2 : 2 ≤ c.fnyquist) :
    ∀ a b : ℕ, ∀ s : NGState, NInv c s →
    c.nedges - s.nedge ≤ a → (c.tend - s.edgepos).toNat ≤ b →
    ∃ fuel fin, InnerLoopWithNoGating c fuel s = some fin := by
  intro a
  induction a with
  | zero =>
    intro b s hI ha hb
    refine ⟨0, s, ?_⟩
    have hg : ngGuard c s = false := by
      simp only [ngGuard, Bool.and_eq_false_iff, decide_eq_false_iff_not]
      right; omega
    simp [InnerLoopWithNoGating, hg]
  | succ a iha =>
    intro b
    induction b with
    | zero =>
      intro s hI ha hb
      refine ⟨0, s, ?_⟩
      have hg : ngGuard c s = false := by
        simp only [ngGuard, Bool.and_eq_false_iff, decide_eq_false_iff_not]
        left; omega
      simp [InnerLoopWithNoGating, hg]
    | succ b ihb =>
      intro s hI ha hb
      by_cases hg : ngGuard c s = true
      · have hab : s.aborted = false := NInv_live_of_guard c s hI hg
        have hIr : NInv c (ngStep c s) := ngStep_NInv c s hI hab
        have hg' : s.edgepos < c.tend ∧ s.nedge < c.nedges - 1 := by
          simpa [ngGuard] using hg
        rcases ngInner_progress c (i64div s.iperiod 2) c.nedges s with he | hlt
        · have key1 : (ngStep c s).nedge = s.nedge := by
            unfold ngStep; dsimp only; rw [he]
          have key2 : (ngStep c s).edgepos = s.edgepos + s.iperiod := by
            unfold ngStep; dsimp only; rw [he]
          have hfny : c.fnyquist ≤ s.iperiod := hI.1 hab
          have hb' : (c.tend - (ngStep c s).edgepos).toNat ≤ b := by
            rw [key2]; have := hg'.1; omega
          obtain ⟨f, fin, hf⟩ := ihb (ngStep c s) hIr (by rw [key1]; exact ha) hb'
          exact ⟨f + 1, fin, by unfold InnerLoopWithNoGating; rw [if_pos hg]; exact hf⟩
        · have key1 : s.nedge < (ngStep c s).nedge := by
            unfold ngStep; dsimp only; exact hlt
          have ha' : c.nedges - (ngStep c s).nedge ≤ a := by
            have := hg'.2; omega
          obtain ⟨f, fin, hf⟩ :=
            iha ((c.tend - (ngStep c s).edgepos).toNat) (ngStep c s) hIr ha' le_rfl
          exact ⟨f + 1, fin, by unfold InnerLoopWithNoGating; rw [if_pos hg]; exact hf⟩
      · have hg' : ngGuard c s = false := Bool.not_eq_true _ |>.mp hg
        exact ⟨0, s, by simp [InnerLoopWithNoGating, hg']⟩


lemma gateScan_nedge (c : GPllInput) (fuel : ℕ) :
    ∀ s : GState, (gateScan c fuel s).nedge = s.nedge := by
  induction fuel with
  | zero => intro s; rfl
  | succ n ih =>
    intro s
    unfold gateScan
    dsimp only
    repeat' split
    all_goals first | rfl | exact ih _

lemma gVisit_nedge (c : GPllInput) (s : GState) (h : s.nedge < c.nedges) :
    s.nedge < (gVisit c s).nedge := by
  unfold gVisit
  dsimp only
  repeat' split
  all_goals first | exact h | exact Nat.lt_succ_self _

lemma gInner_nedge (c : GPllInput) (center : ℤ) (fuel : ℕ) :
    ∀ s : GState, s.nedge ≤ (gInner c center fuel s).nedge := by
  induction fuel with
  | zero => intro s; exact le_rfl
  | succ n ih =>
    intro s
    unfold gInner
    split
    · next hgd =>
      have hn : s.nedge < c.nedges := by have := hgd.2; omega
      have hv : s.nedge < (gVisit c s).nedge := gVisit_nedge c s hn
      dsimp only
      split
      · exact le_of_lt hv
      · exact le_of_lt (lt_of_lt_of_le hv (ih (gVisit c s)))
    · exact le_rfl

lemma gStep_nedge (c : GPllInput) (s : GState) :
    s.nedge ≤ (gStep c s).nedge := by
  unfold gStep
  dsimp only
  have h1 := gateScan_nedge c (gateScanBound c.gate.size + 1) s
  have h2 := gInner_nedge c (i64div s.period 2) c.nedges
    (gateScan c (gateScanBound c.gate.size + 1) s)
  rw [h1] at h2
  split
  · exact h2
  · exact h2


/-! ## Claim theorems: counterexamples and code-bug witnesses -/

/-- C1: the specification requires the vectorised fill to produce the
identical sample sequence as the scalar fill for every length.  The two agree
on every length below the 32-element block width, but diverge at length 32
(and all larger lengths): the stored block pattern starts `false, true, ...`
while the scalar loop emits `true, false, ...`, although the AVX2 routine is
documented in the source as an optimised version of the generic one. -/
theorem c1_avx2_fill_diverges_at_block_width :
    ((List.range 32).all fun len =>
        FillSquarewaveAVX2 len == FillSquarewaveGeneric len) = true ∧
      FillSquarewaveAVX2 32 ≠ FillSquarewaveGeneric 32 :=
  ⟨by decide, by decide⟩

/-- C2: output samples must alternate starting `true` at index 0 on either
synthesis path.  The scalar path does (checked against the alternating
pattern for every length up to 40), but the vectorised path does not: at
length 33 its first sample is `false`, and indices 31 and 32 hold equal
values, so it neither starts `true` nor alternates. -/
theorem c2_alternation_fails_on_avx2_path :
    ((List.range 40).all fun len =>
        FillSquarewaveGeneric len ==
          (List.range len).map (fun i => decide (i % 2 = 0))) = true ∧
      (FillSquarewaveAVX2 33).getD 0 true = false ∧
      (FillSquarewaveAVX2 33).getD 31 false = true ∧
      (FillSquarewaveAVX2 33).getD 32 false = true :=
  ⟨by decide, by decide, by decide, by decide⟩

/-- C3 counterexample: on `nyqInput` the third proportional correction drives
the period below the Nyquist floor.  Corrections stop, but before returning
the loop still appends one more output offset after the violating step: the
offsets already synthesised at the abort were `[50, 150]`, yet the caller
receives `[50, 150, 250]`, refuting the claim that no offset is appended
after the violation and only the prior offsets are returned. -/
theorem c3_counterexample_offset_appended_after_abort :
    (InnerLoopWithNoGating nyqInput 5 (ngInit nyqInput)).map
        (fun s => (s.aborted, s.offsetsAtAbort, s.offsets)) =
      some (true, [50, 150], [50, 150, 250]) := by decide

set_option maxRecDepth 40000 in
set_option maxHeartbeats 4000000 in
/-- C6: on the glitch-burst input `burstEdge` (a strictly increasing edge
sequence) the no-gating loop emits the offset 19266 directly after 19810: the
output offsets are not strictly increasing, because the per-edge bang-bang
nudges drag `edgepos` backwards faster than the shrinking period advances it.
The spec lists strict monotonicity as a required property of every valid run,
and the downstream duration fill would derive a negative duration here, so
this is recorded as a code bug. -/
theorem c6_burst_offsets_not_strictly_increasing :
    (InnerLoopWithNoGating burstInput 6 (ngInit burstInput)).map NGState.offsets =
        some [5000, 15000, 18746, 19810, 19266] ∧
      ([5000, 15000, 18746, 19810, 19266] : List ℤ).getD 4 0 <
        ([5000, 15000, 18746, 19810, 19266] : List ℤ).getD 3 0 :=
  ⟨by decide, by decide⟩

/-- C7 counterexample: with exactly one edge (fewer than two, as the claim
words it) `Refresh` does not produce the no-data result: the code only checks
for an empty edge vector, so the run proceeds through the loop (which
iterates zero times) and yields an empty but present output; with zero edges
the no-data result is produced as claimed. -/
theorem c7_counterexample_one_edge_not_nodata :
    RefreshClock (fun _ => 5) 1 1 ⟨10 ^ 9, 1⟩ 100 3 = some [] ∧
      RefreshClock (fun _ => 5) 0 1 ⟨10 ^ 9, 1⟩ 100 3 = none :=
  ⟨by decide, by decide⟩

/-- C8 counterexample: on `zeroInput` the first visited real edge lies at
timestamp exactly 0, which re-arms the `tlast == 0` no-history sentinel, so
the second visited edge also skips the correction: the correction log (most
recent visit first) reads `[false, false]`, where the claim requires every
visit except exactly the first to apply the correction. -/
theorem c8_counterexample_zero_timestamp_edge :
    (InnerLoopWithNoGating zeroInput 10 (ngInit zeroInput)).map NGState.corrections =
      some [false, false] := by decide

/-- C9: a supplied gate waveform with zero samples does cause gate reads,
out of bounds: the scan bound `igate < gate->size()-1` underflows in `size_t`
(`gateScanBound 0 = 2^64 - 1`), so sample 0 of the empty gate is dereferenced
on every outer iteration; the ghost read log of this three-iteration run
records index 0 three times although the gate has no samples at all. -/
theorem c9_empty_gate_read_out_of_bounds :
    gateScanBound 0 = 2 ^ 64 - 1 ∧
      (InnerLoopWithGating emptyGateInput 10 (gInit emptyGateInput 100 50)).map
          GState.gateReads = some [0, 0, 0] ∧
      emptyGateWave.size = 0 :=
  ⟨by decide, by decide, by decide⟩

/-- C10 counterexample: on `reacqInput` the gated-to-active reacquisition
sets `period = 10`, below the Nyquist floor `fnyquist = 20`, and the loop
keeps running: it appends offset 925 in the transition iteration and 935 in
the following one before the next correction aborts.  This refutes the
claim's assertion that the period stays at or above the Nyquist floor
whenever the loop continues. -/
theorem c10_counterexample_reacquired_period_below_floor :
    (InnerLoopWithGating reacqInput 10 (gInit reacqInput 1000 500)).map
        (fun s => (s.period, s.offsetsAtAbort, s.offsets)) =
      some (10, [925], [925, 935]) ∧ (10 : ℤ) < reacqInput.fnyquist :=
  ⟨by decide, by decide⟩


/-- C4: in both inner loops, the per-edge frequency-error step follows the
claimed rule.  With `u = tnext - lastRealEdge` and nominal period `P`: below
`P/10` the edge counts as a glitch and the frequency term is zero (the gated
loop keeps `uiLen = period` so its `dperiod` is zero); whenever the rounded
UI multiple `round(u/P)` is zero the frequency term is likewise skipped; and
for a nonzero multiple `n` both loops divide `u` by `n` (the no-gating loop
in float arithmetic, the gated loop with `int64` truncation) and subtract
from the current period. -/
theorem c4_frequency_error_per_edge (P u p : ℤ) (f : CFloat) (hP : 0 < P) (hu : 0 ≤ u) :
    (10 * u < P →
      ngFrequencyError P f u = CFloat.ofInt 0 ∧ gatedUiLenAdjusted P p u = p) ∧
    (CFloat.roundAway ⟨u, P⟩ = 0 →
      ngFrequencyError P f u = CFloat.ofInt 0 ∧ gatedUiLenAdjusted P p u = p) ∧
    (∀ n : ℤ, CFloat.roundAway ⟨u, P⟩ = n → n ≠ 0 →
      ngFrequencyError P f u = f.sub ((CFloat.ofInt u).div (CFloat.ofInt n)) ∧
      gatedUiLenAdjusted P p u = i64div u n) := by
  have hlt : ∀ a b : ℤ, (CFloat.ofInt a).lt (CFloat.ofInt b) = decide (a < b) := by
    intro a b; simp [CFloat.lt, CFloat.ofInt]
  have hgnum : ((CFloat.ofInt u).div (CFloat.ofInt P)).roundAway = CFloat.roundAway ⟨u, P⟩ :=
    gated_numUIs_eq u P hu hP
  have hnnum : ((CFloat.ofInt u).mul ((CFloat.ofInt 1).div (CFloat.ofInt P))).roundAway =
      CFloat.roundAway ⟨u, P⟩ := ng_numUIs_eq u P hu hP
  refine ⟨fun hsmall => ?_, fun hzero => ?_, fun n hn hnz => ?_⟩
  · have hz : CFloat.roundAway ⟨u, P⟩ = 0 :=
      roundAway_eq_zero_of_small u P hu hP (by omega)
    constructor
    · unfold ngFrequencyError
      have hguard : ¬ Int.tdiv P 10 < u := by
        rw [Int.tdiv_eq_ediv hP.le (by omega)]
        have := (Int.le_ediv_iff_mul_le (c := 10) (by omega)).mpr (show u * 10 ≤ P by omega)
        omega
      simp only [hlt, i64div]
      simp [hguard]
    · unfold gatedUiLenAdjusted
      rw [hgnum, hz]
      simp [CFloat.lt, CFloat.ofInt]
  · constructor
    · unfold ngFrequencyError
      simp only [hlt, i64div, hnnum]
      by_cases hguard : Int.tdiv P 10 < u
      · simp [hguard, hzero]
      · simp [hguard]
    · unfold gatedUiLenAdjusted
      rw [hgnum, hzero]
      simp [CFloat.lt, CFloat.ofInt]
  · have hn0 : 0 ≤ n := hn ▸ roundAway_uiLen_nonneg u P hu hP
    have hn1 : 1 ≤ n := by omega
    have hbig : P ≤ 2 * u := roundAway_pos_large u P hu hP (hn ▸ hnz)
    have hguard : Int.tdiv P 10 < u := by
      rw [Int.tdiv_eq_ediv hP.le (by omega)]
      by_contra hc
      push_neg at hc
      have h10 : u * 10 ≤ P := (Int.le_ediv_iff_mul_le (c := 10) (by omega)).mp hc
      have : CFloat.roundAway ⟨u, P⟩ = 0 :=
        roundAway_eq_zero_of_small u P hu hP (by omega)
      exact hnz (hn ▸ this)
    constructor
    · unfold ngFrequencyError
      simp only [hlt, i64div, hnnum, hn]
      simp [hguard, hnz]
    · unfold gatedUiLenAdjusted
      rw [hgnum, hn]
      have : (CFloat.ofInt n).lt ⟨1, 10⟩ = false := by
        simp [CFloat.lt, CFloat.ofInt]
        omega
      simp [this]

/-- Witness for C4 at `P = 100`, `u = 250`, period `p = 97`,
`fperiod = 99`: the rounded multiple is 3 and both loops divide by it. -/
theorem c4_witness :
    (0 : ℤ) < 100 ∧ (0 : ℤ) ≤ 250 ∧ CFloat.roundAway ⟨250, 100⟩ = 3 ∧ (3 : ℤ) ≠ 0 ∧
      (ngFrequencyError 100 ⟨99, 1⟩ 250 =
        CFloat.sub ⟨99, 1⟩ ((CFloat.ofInt 250).div (CFloat.ofInt 3)) ∧
      gatedUiLenAdjusted 100 97 250 = i64div 250 3) :=
  ⟨by decide, by decide, by decide, by decide,
    (c4_frequency_error_per_edge 100 250 97 ⟨99, 1⟩ (by decide) (by decide)).2.2 3
      (by decide) (by decide)⟩


/-- C5: on a gated-to-active transition (the scan lands on a gate sample
containing `edgepos` whose value is true while the loop was gating), the
engine reacquires exactly as specified: it collects up to 512 subsequent
edge-to-edge intervals, sorts them (the sort used is a genuine sort: ordered
output, a permutation of the input), takes the median, averages every
interval within 25 percent of it, installs that average as both `period` and
`initialPeriod` with `halfPeriod = period/2`, and snaps `edgePosition` to the
next real edge plus one period. -/
theorem c5_reacquisition_on_ungating (c : GPllInput) (s : GState) (fuel : ℕ)
    (hb : s.igate < gateScanBound c.gate.size)
    (h1 : ¬ s.edgepos < c.gate.offsetScaled s.igate)
    (h2 : ¬ c.gate.offsetScaled s.igate + c.gate.durationScaled s.igate < s.edgepos)
    (hval : c.gate.value s.igate = true) (hg : s.gating = true) :
    (gateScan c (fuel + 1) s).period = reacqAverage c s.nedge ∧
    (gateScan c (fuel + 1) s).initialPeriod = reacqAverage c s.nedge ∧
    (gateScan c (fuel + 1) s).halfPeriod = i64div (reacqAverage c s.nedge) 2 ∧
    (gateScan c (fuel + 1) s).edgepos = c.edge s.nedge + reacqAverage c s.nedge ∧
    (gateScan c (fuel + 1) s).gating = false ∧
    (reacqIntervals c s.nedge).length = min 512 (c.nedges - s.nedge - 1) ∧
    ((reacqIntervals c s.nedge).insertionSort (· ≤ ·)).Sorted (· ≤ ·) ∧
    ((reacqIntervals c s.nedge).insertionSort (· ≤ ·)).Perm (reacqIntervals c s.nedge) := by
  have hscan : gateScan c (fuel + 1) s =
      { s with gateReads := s.igate :: s.gateReads, gating := false,
               lastChange := s.igate,
               period := reacqAverage c s.nedge,
               initialPeriod := reacqAverage c s.nedge,
               halfPeriod := i64div (reacqAverage c s.nedge) 2,
               edgepos := c.edge s.nedge + reacqAverage c s.nedge } := by
    unfold gateScan
    simp [hb, h1, h2, hval, hg]
  refine ⟨by rw [hscan], by rw [hscan], by rw [hscan], by rw [hscan], by rw [hscan],
    ?_, List.sorted_insertionSort _ _, List.perm_insertionSort _ _⟩
  simp [reacqIntervals]

/-- Witness for C5: the transition state of the `reacqInput` run, at gate
sample 1 with `edgepos = 1000`; the reacquired period is the 10 fs average
pulse width. -/
theorem c5_witness :
    ((gateScan reacqInput 4 reacqTransState).period = reacqAverage reacqInput 1 ∧
    (gateScan reacqInput 4 reacqTransState).initialPeriod = reacqAverage reacqInput 1 ∧
    (gateScan reacqInput 4 reacqTransState).halfPeriod = i64div (reacqAverage reacqInput 1) 2 ∧
    (gateScan reacqInput 4 reacqTransState).edgepos =
      reacqInput.edge 1 + reacqAverage reacqInput 1 ∧
    (gateScan reacqInput 4 reacqTransState).gating = false ∧
    (reacqIntervals reacqInput 1).length = min 512 (reacqInput.nedges - 1 - 1) ∧
    ((reacqIntervals reacqInput 1).insertionSort (· ≤ ·)).Sorted (· ≤ ·) ∧
    ((reacqIntervals reacqInput 1).insertionSort (· ≤ ·)).Perm (reacqIntervals reacqInput 1)) :=
  c5_reacquisition_on_ungating reacqInput reacqTransState 3
    (by decide) (by decide) (by decide) (by decide) (by decide)


/-- C7 (amended): the only no-data early exits of `Refresh` are the
zero-edges check and the startup Nyquist check; an input with exactly one
edge is not rejected — it yields a non-null waveform with an empty offsets
list (the inner loop's guard `nedge < nedges - 1` fails at once). -/
theorem c7_nodata_guards (edge : ℕ → ℤ) (nedges : ℕ) (timescale : ℤ)
    (baud : CFloat) (tend : ℤ) (fuel : ℕ) :
    (nedges = 0 → RefreshClock edge nedges timescale baud tend fuel = none) ∧
    ((CFloat.div ⟨FS_PER_SECOND, 1⟩ baud).roundAway < 2 * timescale →
      RefreshClock edge nedges timescale baud tend fuel = none) ∧
    (nedges = 1 → ¬ (CFloat.div ⟨FS_PER_SECOND, 1⟩ baud).roundAway < 2 * timescale →
      RefreshClock edge nedges timescale baud tend fuel = some []) := by
  refine ⟨fun h => by simp [RefreshClock, h], fun h => ?_, fun h1 h2 => ?_⟩
  · by_cases h0 : nedges = 0
    · simp [RefreshClock, h0]
    · simp [RefreshClock, h0, h]
  · subst h1
    simp only [RefreshClock, if_neg h2]
    norm_num
    cases fuel <;> simp [InnerLoopWithNoGating, ngGuard, ngInit]

/-- Witness for C7: an empty input is rejected, a sub-Nyquist baud setting is
rejected, and a one-edge input yields an empty (but present) offsets list. -/
theorem c7_witness :
    (RefreshClock (fun _ => 5) 0 1 ⟨10 ^ 9, 1⟩ 100 3 = none) ∧
    (RefreshClock (fun _ => 5) 1 (10 ^ 15) ⟨1, 1⟩ 100 3 = none) ∧
    (RefreshClock (fun _ => 5) 1 1 ⟨10 ^ 9, 1⟩ 100 3 = some []) :=
  ⟨(c7_nodata_guards (fun _ => 5) 0 1 ⟨10 ^ 9, 1⟩ 100 3).1 rfl,
   (c7_nodata_guards (fun _ => 5) 1 (10 ^ 15) ⟨1, 1⟩ 100 3).2.1 (by decide),
   (c7_nodata_guards (fun _ => 5) 1 1 ⟨10 ^ 9, 1⟩ 100 3).2.2 rfl (by decide)⟩


/-- C8 (amended): the proportional correction is applied at a visit exactly
when the `tlast` sentinel is nonzero; since an edge at timestamp 0 re-arms
the sentinel, the "skipped only on the very first real edge" reading holds
only when every edge timestamp is positive, in which case the correction log
of a completed run is `false` for the first visit and `true` for all later
visits. -/
theorem c8_correction_skipped_iff_tlast_zero (c : PllInput) (fin : NGState)
    (fuel : ℕ) (hpos : ∀ i, i < c.nedges → 0 < c.edge i)
    (hrun : InnerLoopWithNoGating c fuel (ngInit c) = some fin) :
    (∀ t : NGState,
      (ngVisit c t).corrections = (decide (t.tlast ≠ 0)) :: t.corrections) ∧
    ((fin.corrections = [] ∧ fin.tlast = 0) ∨
      (fin.tlast ≠ 0 ∧ ∃ k, fin.corrections = List.replicate k true ++ [false])) :=
  ⟨fun t => ngVisit_corrections c t,
   runNoGating_inv c hpos fuel (ngInit c) fin (Or.inl ⟨rfl, rfl⟩) hrun⟩

/-- Witness for C8: on the all-positive-edge input `posInput` the completed
run's correction log is `[true, false]` — applied everywhere except the
first visit. -/
theorem c8_witness :
    (∀ t : NGState,
      (ngVisit posInput t).corrections = (decide (t.tlast ≠ 0)) :: t.corrections) ∧
    ((posFin.corrections = [] ∧ posFin.tlast = 0) ∨
      (posFin.tlast ≠ 0 ∧ ∃ k, posFin.corrections = List.replicate k true ++ [false])) :=
  c8_correction_skipped_iff_tlast_zero posInput posFin 10
    (by decide) (by decide)


/-- C3 (amended): when the updated period falls below the Nyquist floor, the
inner edge loop stops at once — no further correction is applied or logged —
but the current outer iteration still completes, appending exactly one more
output offset after the violating step (in the gated loop the violating step
can only occur while ungated, so the push is not suppressed); the previously
synthesized offsets are returned as the prefix before that extra element. -/
theorem c3_abort_stops_after_one_more_offset (c : PllInput) (g : GPllInput)
    (fuel gfuel : ℕ) (fin : NGState) (gfin : GState) (ip hp : ℤ)
    (h1 : InnerLoopWithNoGating c fuel (ngInit c) = some fin)
    (h2 : fin.aborted = true)
    (h3 : InnerLoopWithGating g gfuel (gInit g ip hp) = some gfin)
    (h4 : gfin.aborted = true) :
    (fin.nedge = c.nedges ∧ (∃ x, fin.offsets = fin.offsetsAtAbort ++ [x]) ∧
     fin.corrections = fin.correctionsAtAbort) ∧
    (gfin.nedge = g.nedges ∧ (∃ y, gfin.offsets = gfin.offsetsAtAbort ++ [y]) ∧
     gfin.corrections = gfin.correctionsAtAbort) :=
  ⟨runNoGating_abort c fuel (ngInit c) fin rfl h1 h2,
   runGating_abort g gfuel (gInit g ip hp) gfin rfl h3 h4⟩

/-- Witness for C3: the aborting `nyqInput` and `reacqInput` runs each end
with the pre-abort offsets plus exactly one extra element, and with the
correction log frozen at the abort. -/
theorem c3_witness :
    ((nyqFin.nedge = nyqInput.nedges ∧
      (∃ x, nyqFin.offsets = nyqFin.offsetsAtAbort ++ [x]) ∧
      nyqFin.corrections = nyqFin.correctionsAtAbort) ∧
     (reacqFin.nedge = reacqInput.nedges ∧
      (∃ y, reacqFin.offsets = reacqFin.offsetsAtAbort ++ [y]) ∧
      reacqFin.corrections = reacqFin.correctionsAtAbort)) :=
  c3_abort_stops_after_one_more_offset nyqInput reacqInput 5 10 nyqFin reacqFin
    1000 500 (by decide) (by decide) (by decide) (by decide)


/-- C10 (amended): the no-gating loop always terminates when the nominal
period starts at or above the Nyquist floor: every live state keeps
`period >= fnyquist >= 2`, so an outer iteration either consumes an edge or
advances the NCO strictly toward `tend`, and at exit either the end of the
waveform was reached or fewer than two edges remain; the edge cursor never
decreases in either loop.  (The gated loop is excluded from the floor
guarantee: reacquisition can install a period below the floor, see the C10
counterexample.) -/
theorem c10_nogating_terminates_floor_monotone (c : PllInput) (g : GPllInput)
    (h2 : 2 ≤ c.fnyquist) (hip : c.fnyquist ≤ c.initialPeriod) :
    (∃ fuel fin, InnerLoopWithNoGating c fuel (ngInit c) = some fin) ∧
    (∀ fuel fin, InnerLoopWithNoGating c fuel (ngInit c) = some fin →
      (c.tend ≤ fin.edgepos ∨ c.nedges - 1 ≤ fin.nedge) ∧
      (fin.aborted = false → c.fnyquist ≤ fin.iperiod)) ∧
    (∀ s : NGState, s.nedge ≤ (ngStep c s).nedge) ∧
    (∀ s : GState, s.nedge ≤ (gStep g s).nedge) := by
  have hInit : NInv c (ngInit c) :=
    ⟨fun _ => hip, fun h => absurd h (by simp [ngInit])⟩
  refine ⟨?_, ?_, fun s => ngStep_nedge c s, fun s => gStep_nedge g s⟩
  · exact ngRun_total c h2 (c.nedges - (ngInit c).nedge)
      ((c.tend - (ngInit c).edgepos).toNat) (ngInit c) hInit le_rfl le_rfl
  · intro fuel fin hr
    refine ⟨?_, (ngRun_NInv c fuel _ _ hInit hr).1⟩
    have hg := ngRun_exit c fuel _ _ hr
    simp only [ngGuard, Bool.and_eq_false_iff, decide_eq_false_iff_not] at hg
    rcases hg with h | h
    · left; omega
    · right; omega

/-- Witness for C10: the all-positive five-edge `posInput` (no-gating) and
the `emptyGateInput` configuration (gated) satisfy the hypotheses. -/
theorem c10_witness :
    (∃ fuel fin, InnerLoopWithNoGating posInput fuel (ngInit posInput) = some fin) ∧
    (∀ fuel fin, InnerLoopWithNoGating posInput fuel (ngInit posInput) = some fin →
      (posInput.tend ≤ fin.edgepos ∨ posInput.nedges - 1 ≤ fin.nedge) ∧
      (fin.aborted = false → posInput.fnyquist ≤ fin.iperiod)) ∧
    (∀ s : NGState, s.nedge ≤ (ngStep posInput s).nedge) ∧
    (∀ s : GState, s.nedge ≤ (gStep emptyGateInput s).nedge) :=
  c10_nogating_terminates_floor_monotone posInput emptyGateInput
    (by decide) (by decide)
